import Mathlib

/-!
# CharLS colour transforms

A shallow embedding of `src/colortransform.h`: the lossless colour transforms
`TransformNone`, `TransformHp1`, `TransformHp2`, `TransformHp3` and the
bit-depth adapter `TransformShifted`.

Conventions of the embedding.

* A C++ `int` is a Lean `Int`.  For the inputs the theorems range over
  (samples of at most 16 bits, shifted left by less than the sample width)
  every intermediate value stays far inside 32 bits, so no `int` overflows.
* `sample` is an unsigned integer type of `W = sizeof(sample) * 8` bits
  (`W = 8` for `unsigned char`, `W = 16` for `unsigned short`).  Every
  definition takes `W` as its first argument; a value of type `SAMPLE` is an
  `Int` in `[0, 2 ^ W)`.
* `static_cast<SAMPLE>(x)`, and every implicit conversion of an `int` to
  `SAMPLE`, is reduction modulo `2 ^ W` (`toSample`).
* `x << s` is `x * 2 ^ s` (`shl`), `x >> s` is the arithmetic right shift of
  `Int` (`shr`, floor division by `2 ^ s`).  The shift count `_shift` is a
  `Nat`.
-/

namespace Charls

/-! ## Integer helpers -/

/-- The conversion of an `int` to the unsigned `W`-bit type `SAMPLE`
(`static_cast<SAMPLE>(x)` and the implicit narrowing on assignment). -/
def toSample (W : Nat) (x : Int) : Int := x % 2 ^ W

/-- The C++ expression `x << s` on `int`, for a shift that does not overflow. -/
def shl (x : Int) (s : Nat) : Int := x * 2 ^ s

/-- The C++ expression `x >> s` on `int`: the arithmetic right shift. -/
def shr (x : Int) (s : Nat) : Int := x >>> s

/-! ## Value types of `util.h` -/

/-- Modelled from the spec: the value type `Triplet<SAMPLE>` of `util.h`,
"three Sample values (named either R,G,B or v1,v2,v3 ...)". -/
structure Triplet where
  /-- Component `v1`, also named `R`. -/
  v1 : Int
  /-- Component `v2`, also named `G`. -/
  v2 : Int
  /-- Component `v3`, also named `B`. -/
  v3 : Int
deriving DecidableEq, Repr

/-- The member `R` of a triplet shares its storage with `v1`. -/
def Triplet.R (t : Triplet) : Int := t.v1

/-- The member `G` of a triplet shares its storage with `v2`. -/
def Triplet.G (t : Triplet) : Int := t.v2

/-- The member `B` of a triplet shares its storage with `v3`. -/
def Triplet.B (t : Triplet) : Int := t.v3

/-- Modelled from the spec: the constructor `Triplet<SAMPLE>(x1, x2, x3)` of
`util.h`; each `int` argument is stored as a `Sample`, "an unsigned integer
value of fixed bit width W, arithmetic is modular with wraparound at 2^W". -/
def Triplet.ofInts (W : Nat) (x1 x2 x3 : Int) : Triplet :=
  ⟨toSample W x1, toSample W x2, toSample W x3⟩

/-- Modelled from the spec: the value type `Quad<SAMPLE>` of `util.h`, "a
Triplet plus one additional Sample (alpha)". -/
structure Quad where
  /-- Component `v1`, also named `R`. -/
  v1 : Int
  /-- Component `v2`, also named `G`. -/
  v2 : Int
  /-- Component `v3`, also named `B`. -/
  v3 : Int
  /-- Component `v4`, also named `A` (alpha). -/
  v4 : Int
deriving DecidableEq, Repr

/-- Modelled from the spec: the four-argument constructor
`Quad<SAMPLE>(x1, x2, x3, x4)` used by `TransformShifted`; each `int` argument
is stored as a `Sample`. -/
def Quad.ofInts (W : Nat) (x1 x2 x3 x4 : Int) : Quad :=
  ⟨toSample W x1, toSample W x2, toSample W x3, toSample W x4⟩

/-! ## The transforms -/

/-- The constant `enum { RANGE = 1 << (sizeof(sample) * 8) }`. -/
def RANGE (W : Nat) : Int := shl 1 W

/-- The call operator `TransformNoneImpl<sample>::operator()(v1, v2, v3)`. -/
def TransformNoneImpl.call (W : Nat) (v1 v2 v3 : Int) : Triplet :=
  Triplet.ofInts W v1 v2 v3

/-- The call operator `TransformHp1<sample>::INVERSE::operator()(v1, v2, v3)`. -/
def TransformHp1.INVERSE (W : Nat) (v1 v2 v3 : Int) : Triplet :=
  Triplet.ofInts W (v1 + v2 - RANGE W / 2) v2 (v3 + v2 - RANGE W / 2)

/-- The call operator `TransformHp1<sample>::operator()(R, G, B)`. -/
def TransformHp1.call (W : Nat) (R G B : Int) : Triplet :=
  let hp1_v2 := toSample W G
  let hp1_v1 := toSample W (R - G + RANGE W / 2)
  let hp1_v3 := toSample W (B - G + RANGE W / 2)
  ⟨hp1_v1, hp1_v2, hp1_v3⟩

/-- The call operator `TransformHp2<sample>::INVERSE::operator()(v1, v2, v3)`. -/
def TransformHp2.INVERSE (W : Nat) (v1 v2 v3 : Int) : Triplet :=
  let rgb_R := toSample W (v1 + v2 - RANGE W / 2)
  let rgb_G := toSample W v2
  let rgb_B := toSample W (v3 + shr (rgb_R + rgb_G) 1 - RANGE W / 2)
  ⟨rgb_R, rgb_G, rgb_B⟩

/-- The call operator `TransformHp2<sample>::operator()(R, G, B)`. -/
def TransformHp2.call (W : Nat) (R G B : Int) : Triplet :=
  Triplet.ofInts W (R - G + RANGE W / 2) G (B - shr (R + G) 1 - RANGE W / 2)

/-- The call operator `TransformHp3<sample>::INVERSE::operator()(v1, v2, v3)`. -/
def TransformHp3.INVERSE (W : Nat) (v1 v2 v3 : Int) : Triplet :=
  let G : Int := v1 - shr (v3 + v2) 2 + RANGE W / 4
  let rgb_R := toSample W (v3 + G - RANGE W / 2)
  let rgb_G := toSample W G
  let rgb_B := toSample W (v2 + G - RANGE W / 2)
  ⟨rgb_R, rgb_G, rgb_B⟩

/-- The call operator `TransformHp3<sample>::operator()(R, G, B)`.  In the
source the cast of `hp3.v1` covers `G + ((hp3.v2 + hp3.v3) >> 2)` only;
`RANGE / 4` is subtracted from the cast value as an `int` and the difference is
narrowed again by the assignment to the `SAMPLE` member. -/
def TransformHp3.call (W : Nat) (R G B : Int) : Triplet :=
  let hp3_v2 := toSample W (B - G + RANGE W / 2)
  let hp3_v3 := toSample W (R - G + RANGE W / 2)
  let hp3_v1 := toSample W (toSample W (G + shr (hp3_v2 + hp3_v3) 2) - RANGE W / 4)
  ⟨hp3_v1, hp3_v2, hp3_v3⟩

/-- What `TransformShifted<TRANSFORM>` uses of its template argument: the
sample type `TRANSFORM::SAMPLE` (its width in bits), the call operator of
`TRANSFORM` and the call operator of `TRANSFORM::INVERSE`. -/
structure TRANSFORM where
  /-- Width in bits of `TRANSFORM::SAMPLE`. -/
  SAMPLE : Nat
  /-- The forward transform, `TRANSFORM::operator()`. -/
  call : Int → Int → Int → Triplet
  /-- The inverse transform, `TRANSFORM::INVERSE::operator()`. -/
  INVERSE : Int → Int → Int → Triplet

/-- The template `TransformNone<sample>`: it inherits the call operator of
`TransformNoneImpl<sample>`, which is also its `INVERSE`. -/
def TransformNone (W : Nat) : TRANSFORM :=
  ⟨W, TransformNoneImpl.call W, TransformNoneImpl.call W⟩

/-- The template `TransformHp1<sample>`. -/
def TransformHp1 (W : Nat) : TRANSFORM :=
  ⟨W, TransformHp1.call W, TransformHp1.INVERSE W⟩

/-- The template `TransformHp2<sample>`. -/
def TransformHp2 (W : Nat) : TRANSFORM :=
  ⟨W, TransformHp2.call W, TransformHp2.INVERSE W⟩

/-- The template `TransformHp3<sample>`. -/
def TransformHp3 (W : Nat) : TRANSFORM :=
  ⟨W, TransformHp3.call W, TransformHp3.INVERSE W⟩

/-- The template `TransformShifted<TRANSFORM>`: the members `_shift` and
`_colortransform`; `TransformShifted.mk T s` is the constructor
`TransformShifted(int shift)` over the wrapped transform `T`. -/
structure TransformShifted where
  /-- The wrapped transform, member `_colortransform`. -/
  colortransform : TRANSFORM
  /-- The shift count, member `_shift`. -/
  shift : Nat

/-- The nested type `TransformShifted<TRANSFORM>::INVERSE`: the members `_shift`
and `_inverseTransform`, with the sample type it inherits from `TRANSFORM`. -/
structure TransformShifted.INVERSE where
  /-- Width in bits of `SAMPLE`. -/
  SAMPLE : Nat
  /-- The shift count, member `_shift`. -/
  shift : Nat
  /-- The inverse of the wrapped transform, member `_inverseTransform`. -/
  inverseTransform : Int → Int → Int → Triplet

/-- The constructor `INVERSE(const TransformShifted& transform)`: it copies
`transform._shift` and builds `_inverseTransform` from
`transform._colortransform`. -/
def TransformShifted.INVERSE.ofTransform (transform : TransformShifted) :
    TransformShifted.INVERSE :=
  ⟨transform.colortransform.SAMPLE, transform.shift, transform.colortransform.INVERSE⟩

/-- The three-argument call operator of `TransformShifted::INVERSE`. -/
def TransformShifted.INVERSE.call (inv : TransformShifted.INVERSE) (v1 v2 v3 : Int) :
    Triplet :=
  let result := inv.inverseTransform (shl v1 inv.shift) (shl v2 inv.shift) (shl v3 inv.shift)
  Triplet.ofInts inv.SAMPLE (shr result.R inv.shift) (shr result.G inv.shift)
    (shr result.B inv.shift)

/-- The four-argument call operator of `TransformShifted::INVERSE`. -/
def TransformShifted.INVERSE.callQuad (inv : TransformShifted.INVERSE) (v1 v2 v3 v4 : Int) :
    Quad :=
  let result := inv.inverseTransform (shl v1 inv.shift) (shl v2 inv.shift) (shl v3 inv.shift)
  Quad.ofInts inv.SAMPLE (shr result.R inv.shift) (shr result.G inv.shift)
    (shr result.B inv.shift) v4

/-- The three-argument call operator of `TransformShifted`. -/
def TransformShifted.call (t : TransformShifted) (R G B : Int) : Triplet :=
  let result := t.colortransform.call (shl R t.shift) (shl G t.shift) (shl B t.shift)
  Triplet.ofInts t.colortransform.SAMPLE (shr result.R t.shift) (shr result.G t.shift)
    (shr result.B t.shift)

/-- The four-argument call operator of `TransformShifted`. -/
def TransformShifted.callQuad (t : TransformShifted) (R G B A : Int) : Quad :=
  let result := t.colortransform.call (shl R t.shift) (shl G t.shift) (shl B t.shift)
  Quad.ofInts t.colortransform.SAMPLE (shr result.R t.shift) (shr result.G t.shift)
    (shr result.B t.shift) A

/-! ## Helper lemmas -/

/-- The arithmetic right shift is floor division by a power of two. -/
theorem shr_eq_ediv (x : Int) (s : Nat) : shr x s = x / 2 ^ s := by
  unfold shr
  rw [Int.shiftRight_eq_div_pow]
  norm_cast

/-- A value that already fits the sample type is unchanged by the narrowing. -/
theorem toSample_of_fits (W : Nat) (x : Int) (h0 : 0 ≤ x) (h1 : x < 2 ^ W) :
    toSample W x = x :=
  Int.emod_eq_of_lt h0 h1

/-- The fourth argument of the four-argument call operators of `TransformShifted`
and of its `INVERSE` reaches the result through the narrowing to `SAMPLE` only,
whatever the wrapped transform is. -/
theorem callQuad_v4 (T : TRANSFORM) (s : Nat) (x1 x2 x3 A : Int) :
    ((TransformShifted.mk T s).callQuad x1 x2 x3 A).v4 = toSample T.SAMPLE A ∧
    ((TransformShifted.INVERSE.ofTransform (TransformShifted.mk T s)).callQuad
      x1 x2 x3 A).v4 = toSample T.SAMPLE A :=
  ⟨rfl, rfl⟩

/-! ## Round trips at the native width -/

/-- C1. HP1 round trip at native width: for `W = 8` or `W = 16` and all
`R, G, B` in `[0, 2 ^ W)`, `TransformHp1::INVERSE` applied to the three
components returned by the forward `TransformHp1` on `(R, G, B)` returns
exactly `(R, G, B)`. -/
theorem hp1_round_trip (W : Nat) (R G B : Int) (hW : W = 8 ∨ W = 16)
    (hR : 0 ≤ R ∧ R < 2 ^ W) (hG : 0 ≤ G ∧ G < 2 ^ W) (hB : 0 ≤ B ∧ B < 2 ^ W) :
    TransformHp1.INVERSE W (TransformHp1.call W R G B).v1 (TransformHp1.call W R G B).v2
      (TransformHp1.call W R G B).v3 = ⟨R, G, B⟩ := by
  rcases hW with rfl | rfl <;>
    simp only [TransformHp1.INVERSE, TransformHp1.call, Triplet.ofInts, toSample, RANGE, shl,
      Triplet.mk.injEq] at * <;>
    norm_num at * <;> omega

/-- Witness of C1 on the scenario `(200, 100, 50)` at `W = 8`. -/
theorem hp1_round_trip_witness :
    TransformHp1.INVERSE 8 (TransformHp1.call 8 200 100 50).v1
      (TransformHp1.call 8 200 100 50).v2 (TransformHp1.call 8 200 100 50).v3
      = ⟨200, 100, 50⟩ :=
  hp1_round_trip 8 200 100 50 (Or.inl rfl) (by decide) (by decide) (by decide)

/-- C2. HP2 round trip at native width: for `W = 8` or `W = 16` and all
`R, G, B` in `[0, 2 ^ W)`, `TransformHp2::INVERSE` applied to the three
components returned by the forward `TransformHp2` on `(R, G, B)` returns
exactly `(R, G, B)`. -/
theorem hp2_round_trip (W : Nat) (R G B : Int) (hW : W = 8 ∨ W = 16)
    (hR : 0 ≤ R ∧ R < 2 ^ W) (hG : 0 ≤ G ∧ G < 2 ^ W) (hB : 0 ≤ B ∧ B < 2 ^ W) :
    TransformHp2.INVERSE W (TransformHp2.call W R G B).v1 (TransformHp2.call W R G B).v2
      (TransformHp2.call W R G B).v3 = ⟨R, G, B⟩ := by
  rcases hW with rfl | rfl <;>
    simp only [TransformHp2.INVERSE, TransformHp2.call, Triplet.ofInts, toSample, RANGE, shl,
      Triplet.mk.injEq, shr_eq_ediv] at * <;>
    norm_num at * <;> omega

/-- Witness of C2 on the scenario `(10, 20, 30)` at `W = 8`. -/
theorem hp2_round_trip_witness :
    TransformHp2.INVERSE 8 (TransformHp2.call 8 10 20 30).v1
      (TransformHp2.call 8 10 20 30).v2 (TransformHp2.call 8 10 20 30).v3
      = ⟨10, 20, 30⟩ :=
  hp2_round_trip 8 10 20 30 (Or.inl rfl) (by decide) (by decide) (by decide)

/-- C3. HP3 round trip at native width: for `W = 8` or `W = 16` and all
`R, G, B` in `[0, 2 ^ W)`, `TransformHp3::INVERSE` applied to the three
components returned by the forward `TransformHp3` on `(R, G, B)` returns
exactly `(R, G, B)`. -/
theorem hp3_round_trip (W : Nat) (R G B : Int) (hW : W = 8 ∨ W = 16)
    (hR : 0 ≤ R ∧ R < 2 ^ W) (hG : 0 ≤ G ∧ G < 2 ^ W) (hB : 0 ≤ B ∧ B < 2 ^ W) :
    TransformHp3.INVERSE W (TransformHp3.call W R G B).v1 (TransformHp3.call W R G B).v2
      (TransformHp3.call W R G B).v3 = ⟨R, G, B⟩ := by
  rcases hW with rfl | rfl <;>
    simp only [TransformHp3.INVERSE, TransformHp3.call, Triplet.ofInts, toSample, RANGE, shl,
      Triplet.mk.injEq, shr_eq_ediv] at * <;>
    norm_num at * <;> omega

/-- Witness of C3 at `W = 16` on a triplet whose differences wrap around. -/
theorem hp3_round_trip_witness :
    TransformHp3.INVERSE 16 (TransformHp3.call 16 65535 0 40000).v1
      (TransformHp3.call 16 65535 0 40000).v2 (TransformHp3.call 16 65535 0 40000).v3
      = ⟨65535, 0, 40000⟩ :=
  hp3_round_trip 16 65535 0 40000 (Or.inr rfl) (by decide) (by decide) (by decide)

/-! ## Round trips through the bit-depth adapter -/

/-- C4. The adapter over HP2 does not round-trip: a 12-bit pixel `(1, 0, 0)` in
16-bit samples (`W = 16`, shift `4`, components in `[0, 2 ^ 12)`) is sent by
the forward `TransformShifted<TransformHp2>` to `(2049, 0, 2047)`, and the
`INVERSE` built from the same adapter sends that to `(1, 0, 4095)`, not back to
`(1, 0, 0)`; the same happens for a 7-bit pixel in 8-bit samples. -/
theorem shifted_hp2_round_trip_fails :
    (4 < 16 ∧ (0 : Int) ≤ 1 ∧ (1 : Int) < 2 ^ (16 - 4) ∧ (0 : Int) < 2 ^ (16 - 4)) ∧
    (TransformShifted.mk (TransformHp2 16) 4).call 1 0 0 = ⟨2049, 0, 2047⟩ ∧
    (TransformShifted.INVERSE.ofTransform (TransformShifted.mk (TransformHp2 16) 4)).call
      2049 0 2047 = ⟨1, 0, 4095⟩ ∧
    (TransformShifted.mk (TransformHp2 8) 1).call 1 0 0 = ⟨65, 0, 63⟩ ∧
    (TransformShifted.INVERSE.ofTransform (TransformShifted.mk (TransformHp2 8) 1)).call
      65 0 63 = ⟨1, 0, 127⟩ := by
  decide

/-- C5. The adapter over HP3 does not round-trip: a 12-bit pixel `(1, 0, 1)` in
16-bit samples (`W = 16`, shift `4`, components in `[0, 2 ^ 12)`) is sent by
the forward `TransformShifted<TransformHp3>` to `(0, 2049, 2049)`, and the
`INVERSE` built from the same adapter sends that to `(0, 4095, 0)`, not back to
`(1, 0, 1)`; the same happens for a 7-bit pixel in 8-bit samples. -/
theorem shifted_hp3_round_trip_fails :
    (4 < 16 ∧ (0 : Int) ≤ 1 ∧ (1 : Int) < 2 ^ (16 - 4) ∧ (0 : Int) < 2 ^ (16 - 4)) ∧
    (TransformShifted.mk (TransformHp3 16) 4).call 1 0 1 = ⟨0, 2049, 2049⟩ ∧
    (TransformShifted.INVERSE.ofTransform (TransformShifted.mk (TransformHp3 16) 4)).call
      0 2049 2049 = ⟨0, 4095, 0⟩ ∧
    (TransformShifted.mk (TransformHp3 8) 1).call 1 0 1 = ⟨0, 65, 65⟩ ∧
    (TransformShifted.INVERSE.ofTransform (TransformShifted.mk (TransformHp3 8) 1)).call
      0 65 65 = ⟨0, 127, 0⟩ := by
  decide

/-- C6. Adapter composition law over HP1: for `W = 8` or `W = 16`, every shift
`s < W` and all `R, G, B` in `[0, 2 ^ (W - s))`, the `INVERSE` built from
`TransformShifted<TransformHp1>(s)`, applied to the three components that the
adapter returns on `(R, G, B)`, returns exactly `(R, G, B)`. -/
theorem shifted_hp1_round_trip (W s : Nat) (R G B : Int) (hW : W = 8 ∨ W = 16) (hs : s < W)
    (hR : 0 ≤ R ∧ R < 2 ^ (W - s)) (hG : 0 ≤ G ∧ G < 2 ^ (W - s))
    (hB : 0 ≤ B ∧ B < 2 ^ (W - s)) :
    (TransformShifted.INVERSE.ofTransform (TransformShifted.mk (TransformHp1 W) s)).call
      ((TransformShifted.mk (TransformHp1 W) s).call R G B).v1
      ((TransformShifted.mk (TransformHp1 W) s).call R G B).v2
      ((TransformShifted.mk (TransformHp1 W) s).call R G B).v3 = ⟨R, G, B⟩ := by
  rcases hW with rfl | rfl <;> interval_cases s <;>
    simp only [TransformShifted.INVERSE.ofTransform, TransformShifted.INVERSE.call,
      TransformShifted.call, TransformHp1, TransformHp1.INVERSE, TransformHp1.call,
      Triplet.ofInts, Triplet.R, Triplet.G, Triplet.B, toSample, RANGE, shl,
      Triplet.mk.injEq, shr_eq_ediv] at * <;>
    norm_num at * <;> omega

/-- Witness of C6: a 12-bit pixel in 16-bit samples (shift `4`). -/
theorem shifted_hp1_round_trip_witness :
    (TransformShifted.INVERSE.ofTransform (TransformShifted.mk (TransformHp1 16) 4)).call
      ((TransformShifted.mk (TransformHp1 16) 4).call 1 4095 7).v1
      ((TransformShifted.mk (TransformHp1 16) 4).call 1 4095 7).v2
      ((TransformShifted.mk (TransformHp1 16) 4).call 1 4095 7).v3 = ⟨1, 4095, 7⟩ :=
  shifted_hp1_round_trip 16 4 1 4095 7 (Or.inr rfl) (by decide) (by decide) (by decide)
    (by decide)

/-! ## Identity and alpha -/

/-- C7. Identity law: for every sample width `W` (in particular `W = 8` and
`W = 16`) and all `a, b, c` in `[0, 2 ^ W)`, the forward `TransformNone` returns
`(a, b, c)` and so does its `INVERSE` (`TransformNoneImpl`). -/
theorem none_identity (W : Nat) (a b c : Int)
    (ha : 0 ≤ a ∧ a < 2 ^ W) (hb : 0 ≤ b ∧ b < 2 ^ W) (hc : 0 ≤ c ∧ c < 2 ^ W) :
    (TransformNone W).call a b c = ⟨a, b, c⟩ ∧
    (TransformNone W).INVERSE a b c = ⟨a, b, c⟩ := by
  have h : TransformNoneImpl.call W a b c = ⟨a, b, c⟩ := by
    simp only [TransformNoneImpl.call, Triplet.ofInts, toSample_of_fits W a ha.1 ha.2,
      toSample_of_fits W b hb.1 hb.2, toSample_of_fits W c hc.1 hc.2]
  exact ⟨h, h⟩

/-- Witness of C7 on the scenario `(1, 2, 3)`, at `W = 8`. -/
theorem none_identity_witness :
    (TransformNone 8).call 1 2 3 = ⟨1, 2, 3⟩ ∧ (TransformNone 8).INVERSE 1 2 3 = ⟨1, 2, 3⟩ :=
  none_identity 8 1 2 3 (by decide) (by decide) (by decide)

/-- C8. Alpha passthrough: for each wrapped transform `T` among `TransformNone`,
`TransformHp1`, `TransformHp2`, `TransformHp3` over `W`-bit samples, every
shift `s`, all colour inputs and every alpha value `A` in `[0, 2 ^ W)`, the
four-argument call of `TransformShifted<T>(s)` and the four-argument call of
the `INVERSE` built from it both return a quad whose fourth component is `A`. -/
theorem alpha_passthrough (W : Nat) (T : TRANSFORM) (s : Nat) (x1 x2 x3 A : Int)
    (hT : T = TransformNone W ∨ T = TransformHp1 W ∨ T = TransformHp2 W ∨ T = TransformHp3 W)
    (hA : 0 ≤ A ∧ A < 2 ^ W) :
    ((TransformShifted.mk T s).callQuad x1 x2 x3 A).v4 = A ∧
    ((TransformShifted.INVERSE.ofTransform (TransformShifted.mk T s)).callQuad
      x1 x2 x3 A).v4 = A := by
  have hS : T.SAMPLE = W := by
    rcases hT with rfl | rfl | rfl | rfl <;> rfl
  have h := callQuad_v4 T s x1 x2 x3 A
  rw [hS, toSample_of_fits W A hA.1 hA.2] at h
  exact h

/-- Witness of C8: a 12-bit HP2 pixel in 16-bit samples with a full-range alpha. -/
theorem alpha_passthrough_witness :
    ((TransformShifted.mk (TransformHp2 16) 4).callQuad 1 2 3 65535).v4 = 65535 ∧
    ((TransformShifted.INVERSE.ofTransform (TransformShifted.mk (TransformHp2 16) 4)).callQuad
      1 2 3 65535).v4 = 65535 :=
  alpha_passthrough 16 (TransformHp2 16) 4 1 2 3 65535 (Or.inr (Or.inr (Or.inl rfl)))
    (by decide)

/-! ## Forward transforms against their reference definitions -/

/-- C9. HP1 forward equals its reference definition: for every sample width
`W` (in particular `W = 8` and `W = 16`), `RANGE = 2 ^ W`, every `G` in
`[0, RANGE)` and all `R, B` (in particular those in `[0, RANGE)`), the forward
`TransformHp1` returns `v1 = (R - G + RANGE/2) mod RANGE`, `v2 = G`,
`v3 = (B - G + RANGE/2) mod RANGE`; at `W = 8` the input `(200, 100, 50)` gives
`(228, 100, 78)`. -/
theorem hp1_forward_reference (W : Nat) (R G B : Int) (hG : 0 ≤ G ∧ G < 2 ^ W) :
    TransformHp1.call W R G B
      = ⟨(R - G + 2 ^ W / 2) % 2 ^ W, G, (B - G + 2 ^ W / 2) % 2 ^ W⟩ ∧
    TransformHp1.call 8 200 100 50 = ⟨228, 100, 78⟩ := by
  refine ⟨?_, by decide⟩
  simp only [TransformHp1.call, RANGE, shl, one_mul, toSample_of_fits W G hG.1 hG.2]
  simp only [toSample]

/-- Witness of C9 at `W = 16`, where `v1` wraps around. -/
theorem hp1_forward_reference_witness :
    TransformHp1.call 16 65535 1 0
      = ⟨(65535 - 1 + 2 ^ 16 / 2) % 2 ^ 16, 1, (0 - 1 + 2 ^ 16 / 2) % 2 ^ 16⟩ ∧
    TransformHp1.call 8 200 100 50 = ⟨228, 100, 78⟩ :=
  hp1_forward_reference 16 65535 1 0 (by decide)

/-- C10. HP2 forward equals its reference definition: for every sample width
`W` (in particular `W = 8` and `W = 16`), `RANGE = 2 ^ W`, every `G` in
`[0, RANGE)` and all `R, B` (in particular those in `[0, RANGE)`), the forward
`TransformHp2` returns `v1 = (R - G + RANGE/2) mod RANGE`, `v2 = G`,
`v3 = (B - ((R + G) >> 1) - RANGE/2) mod RANGE` with `R + G` the unwrapped
integer sum (its halving rounds down); at `W = 8` the input `(10, 20, 30)`
gives `(118, 20, 143)`. -/
theorem hp2_forward_reference (W : Nat) (R G B : Int) (hG : 0 ≤ G ∧ G < 2 ^ W) :
    TransformHp2.call W R G B
      = ⟨(R - G + 2 ^ W / 2) % 2 ^ W, G, (B - (R + G) / 2 - 2 ^ W / 2) % 2 ^ W⟩ ∧
    TransformHp2.call 8 10 20 30 = ⟨118, 20, 143⟩ := by
  refine ⟨?_, by decide⟩
  simp only [TransformHp2.call, Triplet.ofInts, RANGE, shl, one_mul, shr_eq_ediv, pow_one,
    toSample_of_fits W G hG.1 hG.2]
  simp only [toSample]

/-- Witness of C10 at `W = 16`, where `R + G` exceeds the sample range. -/
theorem hp2_forward_reference_witness :
    TransformHp2.call 16 65535 65535 0
      = ⟨(65535 - 65535 + 2 ^ 16 / 2) % 2 ^ 16, 65535,
          (0 - (65535 + 65535) / 2 - 2 ^ 16 / 2) % 2 ^ 16⟩ ∧
    TransformHp2.call 8 10 20 30 = ⟨118, 20, 143⟩ :=
  hp2_forward_reference 16 65535 65535 0 (by decide)

/-! ## More helper lemmas -/

/-- A narrowed value is not negative. -/
theorem toSample_nonneg (W : Nat) (x : Int) : 0 ≤ toSample W x :=
  Int.emod_nonneg x (by positivity)

/-- A narrowed value is below `2 ^ W`. -/
theorem toSample_lt (W : Nat) (x : Int) : toSample W x < 2 ^ W :=
  Int.emod_lt_of_pos x (by positivity)

/-- Narrowing before subtracting a constant does not change the narrowed
difference. -/
theorem toSample_sub_toSample (W : Nat) (x c : Int) :
    toSample W (toSample W x - c) = toSample W (x - c) := by
  unfold toSample
  rw [Int.sub_eq_add_neg, Int.emod_add_emod, ← Int.sub_eq_add_neg]

/-- Reducing the middle summand first does not change a reduced sum. -/
theorem add_emod_sub_emod (N a x c : Int) :
    (a + x % N - c) % N = (a + x - c) % N := by
  have h : a + x % N - c = x % N + (a - c) := by ring
  have h2 : a + x - c = x + (a - c) := by ring
  rw [h, h2, Int.emod_add_emod]

/-! ## Inverse of HP2 -/

/-- C11. HP2 inverse reconstructs `B` from the returned, already wrapped `R'`
and `G'`: for every sample width `W` (in particular `W = 8` and `W = 16`),
every `v2` in `[0, 2 ^ W)` and all `v1, v3` (in particular those in
`[0, 2 ^ W)`), `TransformHp2::INVERSE` returns `R' = (v1 + v2 - RANGE/2) mod
RANGE`, `G' = v2` and `B' = (v3 + ((R' + G') >> 1) - RANGE/2) mod RANGE` with
`R'`, `G'` the returned components.  The raw inputs or the unreduced sum would
give something else: at `W = 8` on `(0, 0, 0)` the code returns `B' = 192`,
the formula over `v1, v2` gives `128` and over the unreduced sum `64`. -/
theorem hp2_inverse_reference (W : Nat) (v1 v2 v3 : Int) (hv2 : 0 ≤ v2 ∧ v2 < 2 ^ W) :
    ((TransformHp2.INVERSE W v1 v2 v3).v1 = (v1 + v2 - 2 ^ W / 2) % 2 ^ W ∧
     (TransformHp2.INVERSE W v1 v2 v3).v2 = v2 ∧
     (TransformHp2.INVERSE W v1 v2 v3).v3
       = (v3 + ((TransformHp2.INVERSE W v1 v2 v3).v1 + (TransformHp2.INVERSE W v1 v2 v3).v2) / 2
           - 2 ^ W / 2) % 2 ^ W) ∧
    ((TransformHp2.INVERSE 8 0 0 0).v3 = 192 ∧
     ((0 : Int) + (0 + 0) / 2 - 2 ^ 8 / 2) % 2 ^ 8 = 128 ∧
     ((0 : Int) + ((0 + 0 - 2 ^ 8 / 2) + 0) / 2 - 2 ^ 8 / 2) % 2 ^ 8 = 64) := by
  refine ⟨?_, by decide⟩
  simp only [TransformHp2.INVERSE, RANGE, shl, one_mul, shr_eq_ediv, pow_one,
    toSample_of_fits W v2 hv2.1 hv2.2]
  simp only [toSample, and_self]

/-- Witness of C11 on the transformed scenario `(118, 20, 143)` at `W = 8`. -/
theorem hp2_inverse_reference_witness :
    ((TransformHp2.INVERSE 8 118 20 143).v1 = (118 + 20 - 2 ^ 8 / 2) % 2 ^ 8 ∧
     (TransformHp2.INVERSE 8 118 20 143).v2 = 20 ∧
     (TransformHp2.INVERSE 8 118 20 143).v3
       = (143 + ((TransformHp2.INVERSE 8 118 20 143).v1
                  + (TransformHp2.INVERSE 8 118 20 143).v2) / 2
           - 2 ^ 8 / 2) % 2 ^ 8) ∧
    ((TransformHp2.INVERSE 8 0 0 0).v3 = 192 ∧
     ((0 : Int) + (0 + 0) / 2 - 2 ^ 8 / 2) % 2 ^ 8 = 128 ∧
     ((0 : Int) + ((0 + 0 - 2 ^ 8 / 2) + 0) / 2 - 2 ^ 8 / 2) % 2 ^ 8 = 64) :=
  hp2_inverse_reference 8 118 20 143 (by decide)

/-- C12. Simplifying the inverse of HP2 breaks the round trip: at `W = 8` and
at `W = 16` there is a triplet `(R, G, B)` with components in `[0, RANGE)`
such that, with `(v1, v2, v3)` the forward `TransformHp2` of it, the simplified
`B* = (v3 + ((v1 + v2) >> 1) - RANGE/2) mod RANGE` over the raw transformed
inputs differs from `B`, whereas `TransformHp2::INVERSE` returns `B`. -/
theorem hp2_simplified_inverse_breaks :
    (∃ R G B : Int, (0 ≤ R ∧ R < 2 ^ 8) ∧ (0 ≤ G ∧ G < 2 ^ 8) ∧ (0 ≤ B ∧ B < 2 ^ 8) ∧
      ((TransformHp2.call 8 R G B).v3
          + ((TransformHp2.call 8 R G B).v1 + (TransformHp2.call 8 R G B).v2) / 2
          - 2 ^ 8 / 2) % 2 ^ 8 ≠ B ∧
      (TransformHp2.INVERSE 8 (TransformHp2.call 8 R G B).v1 (TransformHp2.call 8 R G B).v2
        (TransformHp2.call 8 R G B).v3).v3 = B) ∧
    (∃ R G B : Int, (0 ≤ R ∧ R < 2 ^ 16) ∧ (0 ≤ G ∧ G < 2 ^ 16) ∧ (0 ≤ B ∧ B < 2 ^ 16) ∧
      ((TransformHp2.call 16 R G B).v3
          + ((TransformHp2.call 16 R G B).v1 + (TransformHp2.call 16 R G B).v2) / 2
          - 2 ^ 16 / 2) % 2 ^ 16 ≠ B ∧
      (TransformHp2.INVERSE 16 (TransformHp2.call 16 R G B).v1 (TransformHp2.call 16 R G B).v2
        (TransformHp2.call 16 R G B).v3).v3 = B) :=
  ⟨⟨10, 20, 30, by decide⟩, ⟨10, 20, 30, by decide⟩⟩

/-! ## HP3 against its reference definitions -/

/-- C13. HP3 forward equals its reference definition: for every sample width
`W` (in particular `W = 8` and `W = 16`) and all `R, G, B` (in particular those
in `[0, RANGE)`), the forward `TransformHp3` returns
`v2 = (B - G + RANGE/2) mod RANGE`, `v3 = (R - G + RANGE/2) mod RANGE` and
`v1 = (G + ((v2 + v3) >> 2) - RANGE/4) mod RANGE` over the returned `v2`, `v3`;
the single reduction of the reference equals the cast before the subtraction of
`RANGE/4` followed by the narrowing of the assignment. -/
theorem hp3_forward_reference (W : Nat) (R G B : Int) :
    (TransformHp3.call W R G B).v2 = (B - G + 2 ^ W / 2) % 2 ^ W ∧
    (TransformHp3.call W R G B).v3 = (R - G + 2 ^ W / 2) % 2 ^ W ∧
    (TransformHp3.call W R G B).v1
      = (G + ((TransformHp3.call W R G B).v2 + (TransformHp3.call W R G B).v3) / 4
          - 2 ^ W / 4) % 2 ^ W := by
  simp only [TransformHp3.call, toSample_sub_toSample, RANGE, shl, one_mul, shr_eq_ediv]
  simp only [toSample]
  norm_num

/-- C14. HP3 inverse equals its reference definition with `G` derived first:
for every sample width `W` (in particular `W = 8` and `W = 16`) and all
`v1, v2, v3` (in particular those in `[0, RANGE)`), `TransformHp3::INVERSE`
returns `G = (v1 - ((v3 + v2) >> 2) + RANGE/4) mod RANGE`,
`R = (v3 + G - RANGE/2) mod RANGE` and `B = (v2 + G - RANGE/2) mod RANGE`, both
with the returned (wrapped) `G` and with the unwrapped integer `G` of the
code. -/
theorem hp3_inverse_reference (W : Nat) (v1 v2 v3 : Int) :
    (TransformHp3.INVERSE W v1 v2 v3).v2 = (v1 - (v3 + v2) / 4 + 2 ^ W / 4) % 2 ^ W ∧
    ((TransformHp3.INVERSE W v1 v2 v3).v1
        = (v3 + (TransformHp3.INVERSE W v1 v2 v3).v2 - 2 ^ W / 2) % 2 ^ W ∧
     (TransformHp3.INVERSE W v1 v2 v3).v3
        = (v2 + (TransformHp3.INVERSE W v1 v2 v3).v2 - 2 ^ W / 2) % 2 ^ W) ∧
    ((TransformHp3.INVERSE W v1 v2 v3).v1
        = (v3 + (v1 - (v3 + v2) / 4 + 2 ^ W / 4) - 2 ^ W / 2) % 2 ^ W ∧
     (TransformHp3.INVERSE W v1 v2 v3).v3
        = (v2 + (v1 - (v3 + v2) / 4 + 2 ^ W / 4) - 2 ^ W / 2) % 2 ^ W) := by
  simp only [TransformHp3.INVERSE, toSample, RANGE, shl, one_mul, shr_eq_ediv,
    add_emod_sub_emod]
  norm_num

/-! ## Helper lemmas for the adapter -/

/-- Shifting a sample right keeps it a sample. -/
theorem ediv_pow_fits (W s : Nat) (x : Int) (h0 : 0 ≤ x) (h1 : x < 2 ^ W) :
    0 ≤ x / 2 ^ s ∧ x / 2 ^ s < 2 ^ W := by
  have hp : (0 : Int) < 2 ^ s := by positivity
  refine ⟨Int.ediv_nonneg h0 hp.le, lt_of_le_of_lt ?_ h1⟩
  exact Int.ediv_le_self _ h0

/-- A `W`-bit sample shifted right by `s ≤ W` has at most `W - s` bits. -/
theorem ediv_pow_lt (W s : Nat) (x : Int) (hs : s ≤ W) (h1 : x < 2 ^ W) :
    x / 2 ^ s < 2 ^ (W - s) := by
  have hp : (0 : Int) < 2 ^ s := by positivity
  apply Int.ediv_lt_of_lt_mul hp
  rw [← pow_add, Nat.sub_add_cancel hs]
  exact h1

/-- The narrowing of the adapter's result triplet is the identity when the
wrapped transform returned samples. -/
theorem ofInts_shr_of_fits (W s : Nat) (t : Triplet)
    (h1 : 0 ≤ t.v1 ∧ t.v1 < 2 ^ W) (h2 : 0 ≤ t.v2 ∧ t.v2 < 2 ^ W)
    (h3 : 0 ≤ t.v3 ∧ t.v3 < 2 ^ W) :
    Triplet.ofInts W (shr t.R s) (shr t.G s) (shr t.B s)
      = ⟨t.v1 / 2 ^ s, t.v2 / 2 ^ s, t.v3 / 2 ^ s⟩ := by
  have a1 := ediv_pow_fits W s t.v1 h1.1 h1.2
  have a2 := ediv_pow_fits W s t.v2 h2.1 h2.2
  have a3 := ediv_pow_fits W s t.v3 h3.1 h3.2
  simp only [Triplet.ofInts, Triplet.R, Triplet.G, Triplet.B, shr_eq_ediv,
    toSample_of_fits W _ a1.1 a1.2, toSample_of_fits W _ a2.1 a2.2,
    toSample_of_fits W _ a3.1 a3.2]

/-- Every component returned by the four transforms and by their inverses is a
sample, whatever the arguments are. -/
theorem outputs_fit (W : Nat) (T : TRANSFORM)
    (hT : T = TransformNone W ∨ T = TransformHp1 W ∨ T = TransformHp2 W ∨ T = TransformHp3 W)
    (a b c : Int) :
    ((0 ≤ (T.call a b c).v1 ∧ (T.call a b c).v1 < 2 ^ W) ∧
     (0 ≤ (T.call a b c).v2 ∧ (T.call a b c).v2 < 2 ^ W) ∧
     (0 ≤ (T.call a b c).v3 ∧ (T.call a b c).v3 < 2 ^ W)) ∧
    ((0 ≤ (T.INVERSE a b c).v1 ∧ (T.INVERSE a b c).v1 < 2 ^ W) ∧
     (0 ≤ (T.INVERSE a b c).v2 ∧ (T.INVERSE a b c).v2 < 2 ^ W) ∧
     (0 ≤ (T.INVERSE a b c).v3 ∧ (T.INVERSE a b c).v3 < 2 ^ W)) := by
  rcases hT with rfl | rfl | rfl | rfl <;>
    simp only [TransformNone, TransformHp1, TransformHp2, TransformHp3, TransformNoneImpl.call,
      TransformHp1.call, TransformHp1.INVERSE, TransformHp2.call, TransformHp2.INVERSE,
      TransformHp3.call, TransformHp3.INVERSE, Triplet.ofInts, toSample_nonneg, toSample_lt,
      and_self]

/-- The sample type of each of the four transforms over `W`-bit samples. -/
theorem sample_of_four (W : Nat) (T : TRANSFORM)
    (hT : T = TransformNone W ∨ T = TransformHp1 W ∨ T = TransformHp2 W ∨ T = TransformHp3 W) :
    T.SAMPLE = W := by
  rcases hT with rfl | rfl | rfl | rfl <;> rfl

/-- Both three-argument call operators of the adapter over one of the four
transforms, written with multiplication and floor division by `2 ^ s`. -/
theorem shifted_call_eq (W : Nat) (T : TRANSFORM) (s : Nat) (a b c : Int)
    (hT : T = TransformNone W ∨ T = TransformHp1 W ∨ T = TransformHp2 W ∨ T = TransformHp3 W) :
    (TransformShifted.mk T s).call a b c
      = ⟨(T.call (a * 2 ^ s) (b * 2 ^ s) (c * 2 ^ s)).v1 / 2 ^ s,
         (T.call (a * 2 ^ s) (b * 2 ^ s) (c * 2 ^ s)).v2 / 2 ^ s,
         (T.call (a * 2 ^ s) (b * 2 ^ s) (c * 2 ^ s)).v3 / 2 ^ s⟩ ∧
    (TransformShifted.INVERSE.ofTransform (TransformShifted.mk T s)).call a b c
      = ⟨(T.INVERSE (a * 2 ^ s) (b * 2 ^ s) (c * 2 ^ s)).v1 / 2 ^ s,
         (T.INVERSE (a * 2 ^ s) (b * 2 ^ s) (c * 2 ^ s)).v2 / 2 ^ s,
         (T.INVERSE (a * 2 ^ s) (b * 2 ^ s) (c * 2 ^ s)).v3 / 2 ^ s⟩ := by
  have hS := sample_of_four W T hT
  have h := outputs_fit W T hT (a * 2 ^ s) (b * 2 ^ s) (c * 2 ^ s)
  constructor
  · simp only [TransformShifted.call, shl, hS]
    exact ofInts_shr_of_fits W s _ h.1.1 h.1.2.1 h.1.2.2
  · simp only [TransformShifted.INVERSE.call, TransformShifted.INVERSE.ofTransform, shl, hS]
    exact ofInts_shr_of_fits W s _ h.2.1 h.2.2.1 h.2.2.2

/-! ## The adapter -/

/-- C15. The inverse of the adapter carries the configuration of the forward
instance: for each wrapped transform `T` among `TransformNone`, `TransformHp1`,
`TransformHp2`, `TransformHp3` and every shift `s`, the `INVERSE` constructed
from `TransformShifted<T>(s)` has `_shift = s`, and its three-argument call
returns, for all `v1, v2, v3`, the inverse of `T` applied to
`(v1 << s, v2 << s, v3 << s)` with each result component shifted right by `s`. -/
theorem inverse_carries_configuration (W : Nat) (T : TRANSFORM) (s : Nat) (v1 v2 v3 : Int)
    (hT : T = TransformNone W ∨ T = TransformHp1 W ∨ T = TransformHp2 W ∨ T = TransformHp3 W) :
    (TransformShifted.INVERSE.ofTransform (TransformShifted.mk T s)).shift = s ∧
    (TransformShifted.INVERSE.ofTransform (TransformShifted.mk T s)).call v1 v2 v3
      = ⟨(T.INVERSE (v1 * 2 ^ s) (v2 * 2 ^ s) (v3 * 2 ^ s)).v1 / 2 ^ s,
         (T.INVERSE (v1 * 2 ^ s) (v2 * 2 ^ s) (v3 * 2 ^ s)).v2 / 2 ^ s,
         (T.INVERSE (v1 * 2 ^ s) (v2 * 2 ^ s) (v3 * 2 ^ s)).v3 / 2 ^ s⟩ :=
  ⟨rfl, (shifted_call_eq W T s v1 v2 v3 hT).2⟩

/-- Witness of C15: HP2 over 16-bit samples with shift `4`. -/
theorem inverse_carries_configuration_witness :
    (TransformShifted.INVERSE.ofTransform (TransformShifted.mk (TransformHp2 16) 4)).shift = 4 ∧
    (TransformShifted.INVERSE.ofTransform (TransformShifted.mk (TransformHp2 16) 4)).call
        2049 0 2047
      = ⟨((TransformHp2 16).INVERSE (2049 * 2 ^ 4) (0 * 2 ^ 4) (2047 * 2 ^ 4)).v1 / 2 ^ 4,
         ((TransformHp2 16).INVERSE (2049 * 2 ^ 4) (0 * 2 ^ 4) (2047 * 2 ^ 4)).v2 / 2 ^ 4,
         ((TransformHp2 16).INVERSE (2049 * 2 ^ 4) (0 * 2 ^ 4) (2047 * 2 ^ 4)).v3 / 2 ^ 4⟩ :=
  inverse_carries_configuration 16 (TransformHp2 16) 4 2049 0 2047
    (Or.inr (Or.inr (Or.inl rfl)))

/-- C16. Quad and triplet paths of the adapter agree on colour: for every
wrapped transform, shift `s`, colour inputs `(a, b, c)` and alpha `A`, the first
three components of the quad returned by the four-argument call of
`TransformShifted` (respectively of its `INVERSE`) equal the components of the
triplet returned by the three-argument call on `(a, b, c)`. -/
theorem quad_agrees_with_triplet (T : TRANSFORM) (s : Nat) (a b c A : Int) :
    (((TransformShifted.mk T s).callQuad a b c A).v1 = ((TransformShifted.mk T s).call a b c).v1 ∧
     ((TransformShifted.mk T s).callQuad a b c A).v2 = ((TransformShifted.mk T s).call a b c).v2 ∧
     ((TransformShifted.mk T s).callQuad a b c A).v3 = ((TransformShifted.mk T s).call a b c).v3) ∧
    (((TransformShifted.INVERSE.ofTransform (TransformShifted.mk T s)).callQuad a b c A).v1
       = ((TransformShifted.INVERSE.ofTransform (TransformShifted.mk T s)).call a b c).v1 ∧
     ((TransformShifted.INVERSE.ofTransform (TransformShifted.mk T s)).callQuad a b c A).v2
       = ((TransformShifted.INVERSE.ofTransform (TransformShifted.mk T s)).call a b c).v2 ∧
     ((TransformShifted.INVERSE.ofTransform (TransformShifted.mk T s)).callQuad a b c A).v3
       = ((TransformShifted.INVERSE.ofTransform (TransformShifted.mk T s)).call a b c).v3) :=
  ⟨⟨rfl, rfl, rfl⟩, ⟨rfl, rfl, rfl⟩⟩

/-- C17. Forward undoes inverse: for `W = 8` or `W = 16` and all `v1, v2, v3`
in `[0, 2 ^ W)`, each of `TransformHp1`, `TransformHp2`, `TransformHp3` applied
to the three components returned by its `INVERSE` on `(v1, v2, v3)` returns
exactly `(v1, v2, v3)`. -/
theorem forward_undoes_inverse (W : Nat) (v1 v2 v3 : Int) (hW : W = 8 ∨ W = 16)
    (h1 : 0 ≤ v1 ∧ v1 < 2 ^ W) (h2 : 0 ≤ v2 ∧ v2 < 2 ^ W) (h3 : 0 ≤ v3 ∧ v3 < 2 ^ W) :
    TransformHp1.call W (TransformHp1.INVERSE W v1 v2 v3).R (TransformHp1.INVERSE W v1 v2 v3).G
      (TransformHp1.INVERSE W v1 v2 v3).B = ⟨v1, v2, v3⟩ ∧
    TransformHp2.call W (TransformHp2.INVERSE W v1 v2 v3).R (TransformHp2.INVERSE W v1 v2 v3).G
      (TransformHp2.INVERSE W v1 v2 v3).B = ⟨v1, v2, v3⟩ ∧
    TransformHp3.call W (TransformHp3.INVERSE W v1 v2 v3).R (TransformHp3.INVERSE W v1 v2 v3).G
      (TransformHp3.INVERSE W v1 v2 v3).B = ⟨v1, v2, v3⟩ := by
  rcases hW with rfl | rfl <;>
    simp only [TransformHp1.INVERSE, TransformHp1.call, TransformHp2.INVERSE, TransformHp2.call,
      TransformHp3.INVERSE, TransformHp3.call, Triplet.ofInts, Triplet.R, Triplet.G, Triplet.B,
      toSample, RANGE, shl, Triplet.mk.injEq, shr_eq_ediv] at * <;>
    norm_num at * <;> omega

/-- Witness of C17 at `W = 8` on `(0, 255, 128)`. -/
theorem forward_undoes_inverse_witness :
    TransformHp1.call 8 (TransformHp1.INVERSE 8 0 255 128).R (TransformHp1.INVERSE 8 0 255 128).G
      (TransformHp1.INVERSE 8 0 255 128).B = ⟨0, 255, 128⟩ ∧
    TransformHp2.call 8 (TransformHp2.INVERSE 8 0 255 128).R (TransformHp2.INVERSE 8 0 255 128).G
      (TransformHp2.INVERSE 8 0 255 128).B = ⟨0, 255, 128⟩ ∧
    TransformHp3.call 8 (TransformHp3.INVERSE 8 0 255 128).R (TransformHp3.INVERSE 8 0 255 128).G
      (TransformHp3.INVERSE 8 0 255 128).B = ⟨0, 255, 128⟩ :=
  forward_undoes_inverse 8 0 255 128 (Or.inl rfl) (by decide) (by decide) (by decide)

/-- C18. The shifted HP1 transform is HP1 at the narrower bit depth: for
`W = 8` or `W = 16`, every shift `s < W`, `n = W - s`, every `G` in `[0, 2 ^ n)`
and all `R, B` (in particular those in `[0, 2 ^ n)`), the forward
`TransformShifted<TransformHp1>(s)` returns `v1 = (R - G + 2^(n-1)) mod 2^n`,
`v2 = G`, `v3 = (B - G + 2^(n-1)) mod 2^n`. -/
theorem shifted_hp1_is_narrow_hp1 (W s : Nat) (R G B : Int) (hW : W = 8 ∨ W = 16) (hs : s < W)
    (hG : 0 ≤ G ∧ G < 2 ^ (W - s)) :
    (TransformShifted.mk (TransformHp1 W) s).call R G B
      = ⟨(R - G + 2 ^ (W - s - 1)) % 2 ^ (W - s), G, (B - G + 2 ^ (W - s - 1)) % 2 ^ (W - s)⟩ := by
  rcases hW with rfl | rfl <;> interval_cases s <;>
    simp only [TransformShifted.call, TransformHp1, TransformHp1.call,
      Triplet.ofInts, Triplet.R, Triplet.G, Triplet.B, toSample, RANGE, shl,
      Triplet.mk.injEq, shr_eq_ediv] at * <;>
    norm_num at * <;> omega

/-- Witness of C18: a 12-bit pixel in 16-bit samples (shift `4`). -/
theorem shifted_hp1_is_narrow_hp1_witness :
    (TransformShifted.mk (TransformHp1 16) 4).call 1 4095 7
      = ⟨(1 - 4095 + 2 ^ (16 - 4 - 1)) % 2 ^ (16 - 4), 4095,
         (7 - 4095 + 2 ^ (16 - 4 - 1)) % 2 ^ (16 - 4)⟩ :=
  shifted_hp1_is_narrow_hp1 16 4 1 4095 7 (Or.inr rfl) (by decide) (by decide)

/-- C19. An adapter with shift `0` is the wrapped transform: for each `T` among
`TransformNone`, `TransformHp1`, `TransformHp2`, `TransformHp3` and all integer
inputs `(a, b, c)`, the forward `TransformShifted<T>(0)` returns the triplet
that `T` returns on `(a, b, c)`, and the `INVERSE` built from it returns the
triplet that `T::INVERSE` returns. -/
theorem shift_zero_is_wrapped (W : Nat) (T : TRANSFORM) (a b c : Int)
    (hT : T = TransformNone W ∨ T = TransformHp1 W ∨ T = TransformHp2 W ∨ T = TransformHp3 W) :
    (TransformShifted.mk T 0).call a b c = T.call a b c ∧
    (TransformShifted.INVERSE.ofTransform (TransformShifted.mk T 0)).call a b c
      = T.INVERSE a b c := by
  have h := shifted_call_eq W T 0 a b c hT
  simp only [pow_zero, mul_one, Int.ediv_one] at h
  exact h

/-- Witness of C19: HP3 over 8-bit samples, with a negative input. -/
theorem shift_zero_is_wrapped_witness :
    (TransformShifted.mk (TransformHp3 8) 0).call (-1) 2 300 = (TransformHp3 8).call (-1) 2 300 ∧
    (TransformShifted.INVERSE.ofTransform (TransformShifted.mk (TransformHp3 8) 0)).call (-1) 2 300
      = (TransformHp3 8).INVERSE (-1) 2 300 :=
  shift_zero_is_wrapped 8 (TransformHp3 8) (-1) 2 300 (Or.inr (Or.inr (Or.inr rfl)))

/-- C20. Adapter outputs fit the actual bit depth: for each `T` among
`TransformNone`, `TransformHp1`, `TransformHp2`, `TransformHp3` over `W`-bit
samples (in particular `W = 8` and `W = 16`), every shift `s ≤ W` and all
integer inputs `(a, b, c)` (in particular the non-negative ones whose left
shift does not overflow), every component returned by the forward
`TransformShifted<T>(s)` and by the `INVERSE` built from it lies in
`[0, 2 ^ (W - s))`. -/
theorem shifted_outputs_fit (W : Nat) (T : TRANSFORM) (s : Nat) (a b c : Int)
    (hT : T = TransformNone W ∨ T = TransformHp1 W ∨ T = TransformHp2 W ∨ T = TransformHp3 W)
    (hs : s ≤ W) :
    ((0 ≤ ((TransformShifted.mk T s).call a b c).v1 ∧
        ((TransformShifted.mk T s).call a b c).v1 < 2 ^ (W - s)) ∧
     (0 ≤ ((TransformShifted.mk T s).call a b c).v2 ∧
        ((TransformShifted.mk T s).call a b c).v2 < 2 ^ (W - s)) ∧
     (0 ≤ ((TransformShifted.mk T s).call a b c).v3 ∧
        ((TransformShifted.mk T s).call a b c).v3 < 2 ^ (W - s))) ∧
    ((0 ≤ ((TransformShifted.INVERSE.ofTransform (TransformShifted.mk T s)).call a b c).v1 ∧
        ((TransformShifted.INVERSE.ofTransform (TransformShifted.mk T s)).call a b c).v1
          < 2 ^ (W - s)) ∧
     (0 ≤ ((TransformShifted.INVERSE.ofTransform (TransformShifted.mk T s)).call a b c).v2 ∧
        ((TransformShifted.INVERSE.ofTransform (TransformShifted.mk T s)).call a b c).v2
          < 2 ^ (W - s)) ∧
     (0 ≤ ((TransformShifted.INVERSE.ofTransform (TransformShifted.mk T s)).call a b c).v3 ∧
        ((TransformShifted.INVERSE.ofTransform (TransformShifted.mk T s)).call a b c).v3
          < 2 ^ (W - s))) := by
  have h := outputs_fit W T hT (a * 2 ^ s) (b * 2 ^ s) (c * 2 ^ s)
  have e := shifted_call_eq W T s a b c hT
  rw [e.1, e.2]
  exact ⟨⟨⟨(ediv_pow_fits W s _ h.1.1.1 h.1.1.2).1, ediv_pow_lt W s _ hs h.1.1.2⟩,
      ⟨(ediv_pow_fits W s _ h.1.2.1.1 h.1.2.1.2).1, ediv_pow_lt W s _ hs h.1.2.1.2⟩,
      ⟨(ediv_pow_fits W s _ h.1.2.2.1 h.1.2.2.2).1, ediv_pow_lt W s _ hs h.1.2.2.2⟩⟩,
    ⟨⟨(ediv_pow_fits W s _ h.2.1.1 h.2.1.2).1, ediv_pow_lt W s _ hs h.2.1.2⟩,
      ⟨(ediv_pow_fits W s _ h.2.2.1.1 h.2.2.1.2).1, ediv_pow_lt W s _ hs h.2.2.1.2⟩,
      ⟨(ediv_pow_fits W s _ h.2.2.2.1 h.2.2.2.2).1, ediv_pow_lt W s _ hs h.2.2.2.2⟩⟩⟩

/-- Witness of C20: the components of the forward adapter over HP3 on a 12-bit
pixel in 16-bit samples (shift `4`) fit 12 bits. -/
theorem shifted_outputs_fit_witness :
    (0 ≤ ((TransformShifted.mk (TransformHp3 16) 4).call 1 0 1).v1 ∧
        ((TransformShifted.mk (TransformHp3 16) 4).call 1 0 1).v1 < 2 ^ (16 - 4)) ∧
     (0 ≤ ((TransformShifted.mk (TransformHp3 16) 4).call 1 0 1).v2 ∧
        ((TransformShifted.mk (TransformHp3 16) 4).call 1 0 1).v2 < 2 ^ (16 - 4)) ∧
     (0 ≤ ((TransformShifted.mk (TransformHp3 16) 4).call 1 0 1).v3 ∧
        ((TransformShifted.mk (TransformHp3 16) 4).call 1 0 1).v3 < 2 ^ (16 - 4)) :=
  (shifted_outputs_fit 16 (TransformHp3 16) 4 1 0 1 (Or.inr (Or.inr (Or.inr rfl)))
    (by decide)).1

end Charls
